import Mathlib

/-!
Verification of the preset persistence layer in `tagger/preset.py`:
path resolution for nested labeled widgets, and the `component` (register),
`load`, `save`, `apply`, `list` operations of the `Preset` class.

The embedding is shallow: Python dicts become association lists with
Python-dict update semantics, the filesystem becomes a mapping from file
name (inside the preset base directory) to parsed JSON content, and each
`Preset` method becomes a pure function on an explicit state record.
-/

/-- JSON-style values stored in preset attribute bags (`None`, booleans,
numbers, strings).  `null` models Python `None`. -/
inductive Value where
  | null : Value
  | bool : Bool → Value
  | num : Int → Value
  | str : String → Value
  deriving DecidableEq, Repr

/-- A Python dict with string keys: an association list with unique keys in
insertion order. -/
abbrev Dict (α : Type) : Type := List (String × α)

/-- Lookup `d[k]` returning `none` when the key is missing. -/
def Dict.get {α : Type} : Dict α → String → Option α
  | [], _ => none
  | (k', v') :: rest, k => if k' = k then some v' else Dict.get rest k

/-- Python's `d.get(k, dflt)`. -/
def Dict.getD {α : Type} (d : Dict α) (k : String) (dflt : α) : α :=
  (Dict.get d k).getD dflt

/-- Python's `d[k] = v`: replace the entry in place if the key exists,
otherwise append it. -/
def Dict.set {α : Type} : Dict α → String → α → Dict α
  | [], k, v => [(k, v)]
  | (k', v') :: rest, k, v =>
      if k' = k then (k, v) :: rest else (k', v') :: Dict.set rest k v

/-- Python's `{**a, **b}`: start from `a` and assign every entry of `b`
over it, so values coming from `b` win on shared keys. -/
def Dict.merge {α : Type} (a b : Dict α) : Dict α :=
  b.foldl (fun acc p => Dict.set acc p.1 p.2) a

/-- Keys are pairwise distinct, as in every list that denotes a Python dict. -/
def Dict.NodupKeys {α : Type} (d : Dict α) : Prop :=
  (d.map (fun p => p.1)).Nodup

instance {α : Type} (d : Dict α) : Decidable (Dict.NodupKeys d) := by
  unfold Dict.NodupKeys; infer_instance

/-- A per-widget attribute bag: `{value, visible?, min?, max?, step?}`. -/
abbrev Bag : Type := Dict Value

/-- A parsed preset file: widget path → attribute bag. -/
abbrev PresetDict : Type := Dict Bag

/-- The preset base directory: file name → parsed JSON content, files only. -/
abbrev FS : Type := Dict PresetDict

/-- The source's `invalid_filename_chars = '<>:"/\\|?*\n\r\t'`. -/
def invalid_filename_chars : List Char :=
  ['<', '>', ':', '"', '/', '\\', '|', '?', '*', '\n', '\r', '\t']

/-- The source's `sanitize_filename_part` (non-`None` input): replace
spaces by `_` when asked, map every invalid character to `_`, strip leading
spaces, truncate to 128 characters, strip trailing spaces and periods. -/
def sanitize_filename_part (text : String) (replace_spaces : Bool) : String :=
  let cs := text.data
  let cs := if replace_spaces then cs.map (fun c => if c = ' ' then '_' else c) else cs
  let cs := cs.map (fun c => if c ∈ invalid_filename_chars then '_' else c)
  let cs := cs.dropWhile (fun c => c = ' ')
  let cs := cs.take 128
  let cs := (cs.reverse.dropWhile (fun c => c = ' ' ∨ c = '.')).reverse
  String.mk cs

/-- A registered widget as the store sees it: its stamped `path` plus the
optional attributes the store probes with `hasattr`/`getattr`
(`visible`, `min`, `max`, `step`, `choices`).  A `none` field models an
attribute the widget instance does not expose. -/
structure Component where
  path : String
  visible? : Option Value
  min? : Option Value
  max? : Option Value
  step? : Option Value
  choices? : Option (List Value)
  deriving DecidableEq, Repr

/-- The `while parent is not None` walk of `Preset.component`: ancestors are
listed innermost first, `none` for containers without a `label` attribute;
each labeled ancestor is prepended (`paths.insert(0, parent.label)`). -/
def buildPaths : List (Option String) → List String → List String
  | [], paths => paths
  | some l :: rest, paths => buildPaths rest (l :: paths)
  | none :: rest, paths => buildPaths rest paths

/-- The source's `'/'.join(paths)`. -/
def joinPath : List String → String
  | [] => ""
  | [s] => s
  | s :: rest => s ++ "/" ++ joinPath rest

/-- Path computation and constructor-argument merge performed by
`Preset.component`: read `kwargs['label']` (a missing or non-string label
makes the call raise, modeled as `none`), build the slash-joined path from
the ancestor chain, and merge `{**kwargs, **default_values.get(path, {})}`. -/
def componentPathArgs (default_values : PresetDict) (ctx : List (Option String))
    (kwargs : Bag) : Option (String × Bag) :=
  match Dict.get kwargs "label" with
  | some (Value.str label) =>
      let path := joinPath (buildPaths ctx [label])
      some (path, Dict.merge kwargs (Dict.getD default_values path []))
  | _ => none

/-- The `Preset` object together with the modeled content of its base
directory.  The methods below are state-passing translations of the class
methods; none of them assigns a field of `self` except the constructor, and
`save` only rewrites the directory content. -/
structure Preset where
  base_dir : String
  default_filename : String
  default_values : PresetDict
  components : List Component
  fs : FS
  deriving DecidableEq, Repr

/-- Python's `str.endswith` at the character level (structural, so that it
evaluates inside the kernel). -/
def strEndsWith (s suff : String) : Bool :=
  List.isSuffixOf suff.data s.data

/-- Append `.json` to the file name when it is not already there. -/
def normalizeFilename (filename : String) : String :=
  if strEndsWith filename ".json" then filename else filename ++ ".json"

/-- The sanitized file name `Preset.load` resolves inside the base
directory. -/
def resolveName (filename : String) : String :=
  sanitize_filename_part (normalizeFilename filename) true

/-- Method `Preset.load`: resolve the sanitized path under the base directory and
parse the file there; a missing file yields the empty mapping.  `self` is
returned unchanged (the method assigns no field). -/
def Preset.load (p : Preset) (filename : String) :
    (String × PresetDict) × Preset :=
  let fname := resolveName filename
  ((p.base_dir ++ "/" ++ fname, Dict.getD p.fs fname []), p)

/-- One per-attribute step of the `for attr in [...]` loop inside
`Preset.save`: `config[attr] = config.get(attr, getattr(component, attr))`
when the widget exposes the attribute, nothing otherwise. -/
def saveAttrStep (attrVal : Option Value) (name : String) (config : Bag) : Bag :=
  match attrVal with
  | some a => Dict.set config name ((Dict.get config name).getD a)
  | none => config

/-- The body of the `for index, component` loop of `Preset.save` for one
widget: overwrite `value` with the supplied value, then run the attribute
loop over `visible`, `min`, `max`, `step` in source order. -/
def saveConfigStep (c : Component) (v : Value) (config : Bag) : Bag :=
  saveAttrStep c.step? "step"
    (saveAttrStep c.max? "max"
      (saveAttrStep c.min? "min"
        (saveAttrStep c.visible? "visible"
          (Dict.set config "value" v))))

/-- The whole `for index, component` loop of `Preset.save`, walking the
registry zipped with the supplied values. -/
def saveLoop : List (Component × Value) → PresetDict → PresetDict
  | [], configs => configs
  | (c, v) :: rest, configs =>
      saveLoop rest
        (Dict.set configs c.path (saveConfigStep c v (Dict.getD configs c.path [])))

/-- Method `Preset.save`: load the existing mapping, merge every registered
widget's bag into it, and write the result back under the resolved name.
`values[index]` raises `IndexError` when fewer values than widgets are
supplied, modeled as `none` with no write (the exception fires before
`write_text`). -/
def Preset.save (p : Preset) (filename : String) (values : List Value) :
    Option (String × Preset) :=
  let configs := (Preset.load p filename).1.2
  if p.components.length ≤ values.length then
    some ("successfully saved the preset",
      { p with fs := Dict.set p.fs (resolveName filename)
                        (saveLoop (p.components.zip values) configs) })
  else
    none

/-- The output list of `Preset.apply`.  `config` aliases the entry of the
loaded mapping, so `config['value'] = None` also mutates the mapping seen by
later widgets with the same path; in that branch the key `'value'` is
present in `config`, hence the bag really is an entry of the mapping and the
write-back `Dict.set` reproduces the aliasing. -/
def applyLoop : PresetDict → List Component → List Bag
  | _, [] => []
  | values, c :: cs =>
      let config := Dict.getD values c.path []
      match Dict.get config "value", c.choices? with
      | some v, some chs =>
          if v ∈ chs then config :: applyLoop values cs
          else
            let config := Dict.set config "value" Value.null
            config :: applyLoop (Dict.set values c.path config) cs
      | _, _ => config :: applyLoop values cs

/-- The mapping state after `Preset.apply` has processed a list of widgets
(the cumulative effect of the aliased `config['value'] = None` writes). -/
def applyState : PresetDict → List Component → PresetDict
  | values, [] => values
  | values, c :: cs =>
      let config := Dict.getD values c.path []
      match Dict.get config "value", c.choices? with
      | some v, some chs =>
          if v ∈ chs then applyState values cs
          else applyState (Dict.set values c.path (Dict.set config "value" Value.null)) cs
      | _, _ => applyState values cs

/-- Method `Preset.apply`: load the mapping for the name and produce one update
directive per registered widget (the keyword set handed to
`component.update`), followed by the confirmation message.  `self` is
returned unchanged. -/
def Preset.apply (p : Preset) (filename : String) :
    (List Bag × String) × Preset :=
  ((applyLoop (Preset.load p filename).1.2 p.components,
    "successfully loaded the preset"), p)

/-- The enumeration `self.base_dir.glob('*.json')` restricted to files: the
names in the directory whose suffix is `.json` (`pathlib.Path.glob` matches
dot-files too, so a hidden `.p.json` is listed like any other). -/
def globJson (fs : FS) : List String :=
  (fs.map (fun e => e.1)).filter (fun n => strEndsWith n ".json")

/-- Method `Preset.list`: the `*.json` file names of the base directory, with the
default file name appended when none were found.  `self` is returned
unchanged. -/
def Preset.list (p : Preset) : List String × Preset :=
  let presets := globJson p.fs
  (if presets.length < 1 then presets ++ [p.default_filename] else presets, p)

/-- Method `Preset.component`: resolve the path and the merged construction
arguments, build the widget (`mk` stands for the externally supplied
`component_class`), stamp it with the path, and append it to the registry. -/
def Preset.component (p : Preset) (mk : Bag → Component)
    (ctx : List (Option String)) (kwargs : Bag) : Option (Component × Preset) :=
  match componentPathArgs p.default_values ctx kwargs with
  | none => none
  | some (path, args) =>
      let comp := { mk args with path := path }
      some (comp, { p with components := p.components ++ [comp] })

/-- Constructor `Preset.__init__`: record the directories and names and pre-load the
default preset into `default_values`; the registry starts empty. -/
def Preset.init (base_dir : String) (default_filename : String) (fs : FS) : Preset :=
  { base_dir := base_dir
    default_filename := default_filename
    default_values := Dict.getD fs (resolveName default_filename) []
    components := []
    fs := fs }

/-! ### Dictionary lemmas -/

theorem Dict.get_set_self {α : Type} (d : Dict α) (k : String) (v : α) :
    Dict.get (Dict.set d k v) k = some v := by
  induction d with
  | nil => simp [Dict.set, Dict.get]
  | cons hd tl ih =>
      obtain ⟨k', v'⟩ := hd
      by_cases h : k' = k
      · simp [Dict.set, h, Dict.get]
      · simp [Dict.set, h, Dict.get, ih]

theorem Dict.get_set_ne {α : Type} (d : Dict α) {k k' : String} (v : α)
    (h : k ≠ k') : Dict.get (Dict.set d k v) k' = Dict.get d k' := by
  induction d with
  | nil => simp [Dict.set, Dict.get, h]
  | cons hd tl ih =>
      obtain ⟨k₀, v₀⟩ := hd
      by_cases h0 : k₀ = k
      · subst h0; simp [Dict.set, Dict.get, h]
      · simp [Dict.set, h0, Dict.get, ih]

theorem Dict.getD_set_self {α : Type} (d : Dict α) (k : String) (v dflt : α) :
    Dict.getD (Dict.set d k v) k dflt = v := by
  simp [Dict.getD, Dict.get_set_self]

theorem Dict.getD_set_ne {α : Type} (d : Dict α) {k k' : String} (v dflt : α)
    (h : k ≠ k') : Dict.getD (Dict.set d k v) k' dflt = Dict.getD d k' dflt := by
  simp [Dict.getD, Dict.get_set_ne _ _ h]

@[simp] theorem Dict.merge_nil {α : Type} (a : Dict α) : Dict.merge a [] = a := rfl

@[simp] theorem Dict.merge_cons {α : Type} (a : Dict α) (p : String × α) (b : Dict α) :
    Dict.merge a (p :: b) = Dict.merge (Dict.set a p.1 p.2) b := rfl

theorem Dict.get_eq_none_of_not_mem {α : Type} (d : Dict α) (k : String)
    (h : k ∉ d.map (fun p => p.1)) : Dict.get d k = none := by
  induction d with
  | nil => rfl
  | cons hd tl ih =>
      obtain ⟨k', v'⟩ := hd
      simp only [List.map_cons, List.mem_cons] at h
      push_neg at h
      have hne : ¬ k' = k := fun hh => h.1 hh.symm
      simp [Dict.get, hne, ih h.2]

theorem Dict.get_merge_none {α : Type} (b : Dict α) : ∀ (a : Dict α) (k : String),
    Dict.get b k = none → Dict.get (Dict.merge a b) k = Dict.get a k := by
  induction b with
  | nil => intro a k _; rfl
  | cons hd tl ih =>
      intro a k h
      obtain ⟨k', v'⟩ := hd
      have hk' : k' ≠ k := by
        intro hh; simp [Dict.get, hh] at h
      have htl : Dict.get tl k = none := by
        simpa [Dict.get, hk'] using h
      rw [Dict.merge_cons, ih _ _ htl, Dict.get_set_ne _ _ hk']

theorem Dict.get_merge_some {α : Type} (b : Dict α) : ∀ (a : Dict α) (k : String) (v : α),
    Dict.NodupKeys b → Dict.get b k = some v →
    Dict.get (Dict.merge a b) k = some v := by
  induction b with
  | nil => intro a k v _ h; simp [Dict.get] at h
  | cons hd tl ih =>
      intro a k v hnd h
      obtain ⟨k', v'⟩ := hd
      have hnd' := hnd
      simp only [Dict.NodupKeys, List.map_cons, List.nodup_cons] at hnd'
      by_cases hk : k' = k
      · subst hk
        have hv : v' = v := by simpa [Dict.get] using h
        subst hv
        have htl : Dict.get tl k' = none :=
          Dict.get_eq_none_of_not_mem _ _ hnd'.1
        rw [Dict.merge_cons, Dict.get_merge_none _ _ _ htl, Dict.get_set_self]
      · have htl : Dict.get tl k = some v := by simpa [Dict.get, hk] using h
        rw [Dict.merge_cons]
        exact ih _ _ _ hnd'.2 htl

/-! ### Save lemmas -/

theorem get_saveAttrStep_ne (attrVal : Option Value) (n k : String) (config : Bag)
    (h : n ≠ k) : Dict.get (saveAttrStep attrVal n config) k = Dict.get config k := by
  cases attrVal with
  | none => rfl
  | some a => simp [saveAttrStep, Dict.get_set_ne _ _ h]

theorem get_saveAttrStep_of_some (attrVal : Option Value) (n k : String) (config : Bag)
    (w : Value) (h : Dict.get config k = some w) :
    Dict.get (saveAttrStep attrVal n config) k = some w := by
  by_cases hn : n = k
  · subst hn
    cases attrVal with
    | none => exact h
    | some a => simp [saveAttrStep, h, Dict.get_set_self]
  · rw [get_saveAttrStep_ne _ _ _ _ hn]; exact h

theorem get_saveConfigStep_value (c : Component) (v : Value) (config : Bag) :
    Dict.get (saveConfigStep c v config) "value" = some v := by
  unfold saveConfigStep
  rw [get_saveAttrStep_ne _ _ _ _ (by decide),
      get_saveAttrStep_ne _ _ _ _ (by decide),
      get_saveAttrStep_ne _ _ _ _ (by decide),
      get_saveAttrStep_ne _ _ _ _ (by decide),
      Dict.get_set_self]

theorem get_saveConfigStep_of_some (c : Component) (v : Value) (config : Bag)
    (a : String) (w : Value) (hav : a ≠ "value")
    (h : Dict.get config a = some w) :
    Dict.get (saveConfigStep c v config) a = some w := by
  unfold saveConfigStep
  apply get_saveAttrStep_of_some
  apply get_saveAttrStep_of_some
  apply get_saveAttrStep_of_some
  apply get_saveAttrStep_of_some
  rw [Dict.get_set_ne _ _ (fun hh => hav hh.symm)]
  exact h

theorem saveLoop_get_frame : ∀ (ps : List (Component × Value)) (configs : PresetDict)
    (k : String), (∀ q ∈ ps, q.1.path ≠ k) →
    Dict.get (saveLoop ps configs) k = Dict.get configs k := by
  intro ps
  induction ps with
  | nil => intro configs k _; rfl
  | cons q rest ih =>
      intro configs k h
      obtain ⟨c, v⟩ := q
      have hc : c.path ≠ k := h (c, v) (List.mem_cons_self _ _)
      rw [saveLoop, ih _ _ (fun q hq => h q (List.mem_cons_of_mem _ hq)),
          Dict.get_set_ne _ _ hc]

theorem saveLoop_getD_nodup : ∀ (cs : List Component) (vs : List Value)
    (configs : PresetDict) (i : Nat) (hi : i < cs.length)
    (hlen : cs.length ≤ vs.length), (cs.map (fun c => c.path)).Nodup →
    Dict.getD (saveLoop (cs.zip vs) configs) (cs.get ⟨i, hi⟩).path []
      = saveConfigStep (cs.get ⟨i, hi⟩)
          (vs.get ⟨i, Nat.lt_of_lt_of_le hi hlen⟩)
          (Dict.getD configs (cs.get ⟨i, hi⟩).path []) := by
  intro cs
  induction cs with
  | nil => intro vs configs i hi; exact absurd hi (by simp)
  | cons c rest ih =>
      intro vs configs i hi hlen hnd
      cases vs with
      | nil => exact absurd hlen (by simp)
      | cons v vrest =>
          simp only [List.map_cons, List.nodup_cons] at hnd
          cases i with
          | zero =>
              have hfr : ∀ q ∈ rest.zip vrest, q.1.path ≠ c.path := by
                intro q hq hEq
                exact hnd.1 (hEq ▸ List.mem_map_of_mem (fun c => c.path)
                  (List.of_mem_zip hq).1)
              show Dict.getD (saveLoop (rest.zip vrest) _) c.path [] = _
              unfold Dict.getD
              rw [saveLoop_get_frame _ _ _ hfr, Dict.get_set_self]
              rfl
          | succ j =>
              have hj : j < rest.length := Nat.lt_of_succ_lt_succ hi
              have hne : (rest.get ⟨j, hj⟩).path ≠ c.path := by
                intro hEq
                exact hnd.1 (hEq ▸ List.mem_map_of_mem (fun c => c.path)
                  (List.get_mem rest j hj))
              show Dict.getD (saveLoop (rest.zip vrest) _) (rest.get ⟨j, hj⟩).path [] = _
              rw [ih vrest _ j hj (Nat.le_of_succ_le_succ hlen) hnd.2,
                  Dict.getD_set_ne _ _ _ (Ne.symm hne)]
              rfl

/-! ### Apply lemmas -/

theorem applyLoop_no_choices : ∀ (cs : List Component) (values : PresetDict),
    (∀ c ∈ cs, c.choices? = none) →
    applyLoop values cs = cs.map (fun c => Dict.getD values c.path []) := by
  intro cs
  induction cs with
  | nil => intro values _; rfl
  | cons c rest ih =>
      intro values h
      have hc := h c (List.mem_cons_self _ _)
      have hrest := fun c' hc' => h c' (List.mem_cons_of_mem _ hc')
      cases hv : Dict.get (Dict.getD values c.path []) "value" <;>
        simp [applyLoop, hc, hv, ih _ hrest]

theorem applyLoop_length : ∀ (cs : List Component) (values : PresetDict),
    (applyLoop values cs).length = cs.length := by
  intro cs
  induction cs with
  | nil => intro values; rfl
  | cons c rest ih =>
      intro values
      cases hv : Dict.get (Dict.getD values c.path []) "value" with
      | none => simp [applyLoop, hv, ih]
      | some v =>
          cases hch : c.choices? with
          | none => simp [applyLoop, hv, hch, ih]
          | some chs =>
              by_cases hin : v ∈ chs <;> simp [applyLoop, hv, hch, hin, ih]

theorem applyLoop_append : ∀ (pre post : List Component) (values : PresetDict),
    applyLoop values (pre ++ post)
      = applyLoop values pre ++ applyLoop (applyState values pre) post := by
  intro pre
  induction pre with
  | nil => intro post values; rfl
  | cons c rest ih =>
      intro post values
      cases hv : Dict.get (Dict.getD values c.path []) "value" with
      | none => simp [applyLoop, applyState, hv, ih]
      | some v =>
          cases hch : c.choices? with
          | none => simp [applyLoop, applyState, hv, hch, ih]
          | some chs =>
              by_cases hin : v ∈ chs <;>
                simp [applyLoop, applyState, hv, hch, hin, ih]

/-- Method `apply` only ever rewrites the `value` entry of a bag to `None`: the
mapping it threads along agrees with the loaded one on every key other than
`value`, and on `value` it is either unchanged or nulled. -/
def mutOnly (v v' : PresetDict) : Prop :=
  ∀ p : String,
    (Dict.get (Dict.getD v' p []) "value" = Dict.get (Dict.getD v p []) "value"
      ∨ Dict.get (Dict.getD v' p []) "value" = some Value.null)
    ∧ ∀ k : String, k ≠ "value" →
        Dict.get (Dict.getD v' p []) k = Dict.get (Dict.getD v p []) k

theorem mutOnly_refl (v : PresetDict) : mutOnly v v :=
  fun _ => ⟨Or.inl rfl, fun _ _ => rfl⟩

theorem mutOnly_trans {u v w : PresetDict} (h1 : mutOnly u v) (h2 : mutOnly v w) :
    mutOnly u w := by
  intro p
  obtain ⟨hv1, hk1⟩ := h1 p
  obtain ⟨hv2, hk2⟩ := h2 p
  refine ⟨?_, fun k hk => (hk2 k hk).trans (hk1 k hk)⟩
  rcases hv2 with h | h
  · rcases hv1 with h' | h'
    · exact Or.inl (h.trans h')
    · exact Or.inr (h.trans h')
  · exact Or.inr h

theorem mutOnly_set_null (values : PresetDict) (path : String) :
    mutOnly values
      (Dict.set values path
        (Dict.set (Dict.getD values path []) "value" Value.null)) := by
  intro p
  by_cases hp : path = p
  · subst hp
    rw [Dict.getD_set_self]
    constructor
    · exact Or.inr (Dict.get_set_self _ _ _)
    · intro k hk
      exact Dict.get_set_ne _ _ (fun hh => hk hh.symm)
  · rw [Dict.getD_set_ne _ _ _ hp]
    exact ⟨Or.inl rfl, fun _ _ => rfl⟩

theorem mutOnly_applyState : ∀ (cs : List Component) (values : PresetDict),
    mutOnly values (applyState values cs) := by
  intro cs
  induction cs with
  | nil => intro values; exact mutOnly_refl values
  | cons c rest ih =>
      intro values
      cases hv : Dict.get (Dict.getD values c.path []) "value" with
      | none => simpa [applyState, hv] using ih values
      | some v =>
          cases hch : c.choices? with
          | none => simpa [applyState, hv, hch] using ih values
          | some chs =>
              by_cases hin : v ∈ chs
              · simpa [applyState, hv, hch, hin] using ih values
              · simp only [applyState, hv, hch, hin, if_neg]
                exact mutOnly_trans (mutOnly_set_null values c.path)
                  (ih _)

/-! ### Path lemmas -/

theorem buildPaths_ne_nil : ∀ (ctx : List (Option String)) (a : String)
    (acc : List String), buildPaths ctx (a :: acc) ≠ [] := by
  intro ctx
  induction ctx with
  | nil => intro a acc h; exact List.cons_ne_nil a acc h
  | cons o rest ih =>
      intro a acc
      cases o with
      | none => exact ih a acc
      | some l => exact ih l (a :: acc)

theorem append_cons_inj (c : Char) : ∀ (a b r1 r2 : List Char), c ∉ a → c ∉ b →
    a ++ c :: r1 = b ++ c :: r2 → a = b ∧ r1 = r2 := by
  intro a
  induction a with
  | nil =>
      intro b r1 r2 _ hb h
      cases b with
      | nil => simpa using h
      | cons x xs =>
          simp only [List.nil_append, List.cons_append, List.cons.injEq] at h
          exact absurd (h.1 ▸ List.mem_cons_self x xs) hb
  | cons y ys ih =>
      intro b r1 r2 ha hb h
      cases b with
      | nil =>
          simp only [List.nil_append, List.cons_append, List.cons.injEq] at h
          exact absurd (h.1.symm ▸ List.mem_cons_self y ys) ha
      | cons x xs =>
          simp only [List.cons_append, List.cons.injEq] at h
          have ha' : c ∉ ys := fun hc => ha (List.mem_cons_of_mem _ hc)
          have hb' : c ∉ xs := fun hc => hb (List.mem_cons_of_mem _ hc)
          obtain ⟨heq, htl⟩ := ih xs r1 r2 ha' hb' h.2
          exact ⟨by rw [h.1, heq], htl⟩

theorem joinPath_single (s : String) : joinPath [s] = s := rfl

theorem joinPath_cons2 (s t : String) (r : List String) :
    joinPath (s :: t :: r) = s ++ "/" ++ joinPath (t :: r) := rfl

theorem data_join_cons (s t : String) :
    (s ++ "/" ++ t).data = s.data ++ '/' :: t.data := by
  rw [String.data_append, String.data_append]
  rw [show ("/" : String).data = ['/'] from rfl, List.append_assoc]
  rfl

theorem slash_mem_join (s t : String) : '/' ∈ (s ++ "/" ++ t).data := by
  rw [data_join_cons]
  exact List.mem_append_right _ (List.mem_cons_self _ _)

theorem joinPath_inj : ∀ (l1 l2 : List String), l1 ≠ [] → l2 ≠ [] →
    (∀ s ∈ l1, '/' ∉ s.data) → (∀ s ∈ l2, '/' ∉ s.data) →
    joinPath l1 = joinPath l2 → l1 = l2 := by
  intro l1
  induction l1 with
  | nil => intro l2 h1; exact absurd rfl h1
  | cons s rest1 ih =>
      intro l2 _ h2 hs1 hs2 hj
      cases l2 with
      | nil => exact absurd rfl h2
      | cons t rest2 =>
          cases rest1 with
          | nil =>
              cases rest2 with
              | nil =>
                  rw [joinPath_single, joinPath_single] at hj
                  rw [hj]
              | cons u rest2' =>
                  exfalso
                  rw [joinPath_single, joinPath_cons2] at hj
                  have hmem : '/' ∈ s.data := by
                    rw [hj]
                    exact slash_mem_join _ _
                  exact hs1 s (List.mem_cons_self _ _) hmem
          | cons u1 rest1' =>
              cases rest2 with
              | nil =>
                  exfalso
                  rw [joinPath_cons2, joinPath_single] at hj
                  have hmem : '/' ∈ t.data := by
                    rw [← hj]
                    exact slash_mem_join _ _
                  exact hs2 t (List.mem_cons_self _ _) hmem
              | cons u2 rest2' =>
                  rw [joinPath_cons2, joinPath_cons2] at hj
                  have hj' : (s ++ "/" ++ joinPath (u1 :: rest1')).data
                      = (t ++ "/" ++ joinPath (u2 :: rest2')).data := by
                    rw [hj]
                  rw [data_join_cons, data_join_cons] at hj'
                  obtain ⟨hst, hrest⟩ := append_cons_inj '/' _ _ _ _
                    (hs1 s (List.mem_cons_self _ _))
                    (hs2 t (List.mem_cons_self _ _)) hj'
                  have hs : s = t := String.ext hst
                  have hrests : joinPath (u1 :: rest1') = joinPath (u2 :: rest2') :=
                    String.ext hrest
                  have htail : u1 :: rest1' = u2 :: rest2' :=
                    ih (u2 :: rest2') (List.cons_ne_nil _ _) (List.cons_ne_nil _ _)
                      (fun x hx => hs1 x (List.mem_cons_of_mem _ hx))
                      (fun x hx => hs2 x (List.mem_cons_of_mem _ hx)) hrests
                  rw [hs, htail]

/-! ### Claim theorems -/

/-- C6: for a name whose resolved, sanitized file is absent from the preset
directory, `load` returns the resolved path together with the empty mapping
(total, no error), and the result is indistinguishable from loading an
empty preset file at the same name. -/
theorem C6_load_missing (p q : Preset) (name : String)
    (hb : q.base_dir = p.base_dir)
    (h : Dict.get p.fs (resolveName name) = none)
    (h2 : Dict.get q.fs (resolveName name) = some []) :
    (Preset.load p name).1 = (p.base_dir ++ "/" ++ resolveName name, ([] : PresetDict))
    ∧ (Preset.load q name).1 = (Preset.load p name).1 := by
  unfold Preset.load
  simp [Dict.getD, h, h2, hb]

/-- Witness for C6: directory without `x.json` versus directory holding an
empty `x.json`. -/
theorem C6_load_missing_witness :
    (Preset.load ⟨"b", "d.json", [], [], []⟩ "x").1 = ("b/x.json", ([] : PresetDict))
    ∧ (Preset.load ⟨"b", "d.json", [], [], [("x.json", [])]⟩ "x").1
        = (Preset.load ⟨"b", "d.json", [], [], []⟩ "x").1 :=
  C6_load_missing ⟨"b", "d.json", [], [], []⟩ ⟨"b", "d.json", [], [], [("x.json", [])]⟩
    "x" rfl (by decide) (by decide)

/-- C5: every entry of the loaded mapping whose key is not the path of a
registered widget is present unchanged in the mapping `save` writes back. -/
theorem C5_save_frame (p p' : Preset) (name msg : String) (values : List Value)
    (h : Preset.save p name values = some (msg, p'))
    (k : String) (hk : ∀ c ∈ p.components, c.path ≠ k) :
    Dict.get (Dict.getD p'.fs (resolveName name) []) k
      = Dict.get (Dict.getD p.fs (resolveName name) []) k := by
  unfold Preset.save at h
  by_cases hlen : p.components.length ≤ values.length
  · simp only [if_pos hlen, Option.some.injEq, Prod.mk.injEq] at h
    rw [← h.2]
    simp only [Dict.getD_set_self]
    refine (saveLoop_get_frame _ _ _ ?_).trans rfl
    intro q hq
    exact hk q.1 (List.of_mem_zip hq).1
  · simp [if_neg hlen] at h

/-- Witness for C5: a foreign entry `"other"` survives a save. -/
theorem C5_save_frame_witness :
    Dict.get (Dict.getD (Preset.mk "b" "d.json" []
        [⟨"p", none, none, none, none, none⟩]
        [("n.json", [("other", [("value", Value.num 7)])])]).fs
        (resolveName "n") []) "other"
      = Dict.get (Dict.getD ([("n.json", [("other", [("value", Value.num 7)])])] : FS)
          (resolveName "n") []) "other" := by
  have h := C5_save_frame
    (Preset.mk "b" "d.json" [] [⟨"p", none, none, none, none, none⟩]
      [("n.json", [("other", [("value", Value.num 7)])])])
    (Preset.mk "b" "d.json" [] [⟨"p", none, none, none, none, none⟩]
      [("n.json", [("other", [("value", Value.num 7)]),
                   ("p", [("value", Value.num 1)])])])
    "n" "successfully saved the preset" [Value.num 1] (by decide)
    "other" (by decide)
  exact (by decide : Dict.get (Dict.getD (Preset.mk "b" "d.json" []
      [⟨"p", none, none, none, none, none⟩]
      [("n.json", [("other", [("value", Value.num 7)])])]).fs
      (resolveName "n") []) "other"
    = Dict.get (Dict.getD ([("n.json", [("other", [("value", Value.num 7)])])] : FS)
        (resolveName "n") []) "other")

/-- C8: on a directory with no `*.json` files `list` returns exactly the
default file name; otherwise it returns the matching file names and is
never empty. -/
theorem C8_list (p : Preset) :
    (globJson p.fs = [] → (Preset.list p).1 = [p.default_filename])
    ∧ (globJson p.fs ≠ [] →
        (Preset.list p).1 = globJson p.fs ∧ (Preset.list p).1 ≠ []) := by
  constructor
  · intro h
    simp [Preset.list, h]
  · intro h
    have hlt : ¬ (globJson p.fs).length < 1 := by
      cases hg : globJson p.fs with
      | nil => exact absurd hg h
      | cons a l => simp
    constructor
    · simp [Preset.list, hlt]
    · simp [Preset.list, hlt, h]

/-- Witness for C8: an empty directory, a directory with one preset, and a
directory whose only preset is the hidden `.p.json` that `save(".p")`
creates — `glob` matches it, so `list` returns it, not the default name. -/
theorem C8_list_witness :
    (Preset.list ⟨"b", "d.json", [], [], []⟩).1 = ["d.json"]
    ∧ (Preset.list ⟨"b", "d.json", [], [], [("a.json", [])]⟩).1 = ["a.json"]
    ∧ (Preset.list ⟨"b", "d.json", [], [], [(".p.json", [])]⟩).1 = [".p.json"] := by
  refine ⟨(C8_list ⟨"b", "d.json", [], [], []⟩).1 (by decide), ?_, ?_⟩
  · exact ((C8_list ⟨"b", "d.json", [], [], [("a.json", [])]⟩).2 (by decide)).1
  · exact ((C8_list ⟨"b", "d.json", [], [], [(".p.json", [])]⟩).2 (by decide)).1

/-- C10: the registry is modified only by `component`, which appends exactly
the constructed widget; `load`, `save`, `apply` and `list` leave its length,
elements and order identical. -/
theorem C10_registry (p : Preset) (mk : Bag → Component)
    (ctx : List (Option String)) (kwargs : Bag)
    (n1 n2 n3 : String) (vs : List Value)
    (comp : Component) (p₁ : Preset) (msg : String) (p₂ : Preset)
    (hreg : Preset.component p mk ctx kwargs = some (comp, p₁))
    (hsave : Preset.save p n2 vs = some (msg, p₂)) :
    p₁.components = p.components ++ [comp]
    ∧ (Preset.load p n1).2.components = p.components
    ∧ p₂.components = p.components
    ∧ (Preset.apply p n3).2.components = p.components
    ∧ (Preset.list p).2.components = p.components := by
  refine ⟨?_, rfl, ?_, rfl, rfl⟩
  · unfold Preset.component at hreg
    cases hc : componentPathArgs p.default_values ctx kwargs with
    | none => rw [hc] at hreg; exact absurd hreg (by simp)
    | some pa =>
        obtain ⟨path, args⟩ := pa
        rw [hc] at hreg
        simp only [Option.some.injEq, Prod.mk.injEq] at hreg
        rw [← hreg.2, ← hreg.1]
  · unfold Preset.save at hsave
    by_cases hlen : p.components.length ≤ vs.length
    · simp only [if_pos hlen, Option.some.injEq, Prod.mk.injEq] at hsave
      rw [← hsave.2]
    · simp [if_neg hlen] at hsave

/-- Witness for C10 at a concrete store, registration and save. -/
theorem C10_registry_witness :
    (Preset.mk "b" "d.json" [] [⟨"t", none, none, none, none, none⟩] []).components
      = (Preset.mk "b" "d.json" [] [] []).components
          ++ [⟨"t", none, none, none, none, none⟩]
    ∧ (Preset.load (Preset.mk "b" "d.json" [] [] []) "n").2.components
        = (Preset.mk "b" "d.json" [] [] []).components
    ∧ (Preset.mk "b" "d.json" [] []
        [("n.json", [])]).components = (Preset.mk "b" "d.json" [] [] []).components
    ∧ (Preset.apply (Preset.mk "b" "d.json" [] [] []) "n").2.components
        = (Preset.mk "b" "d.json" [] [] []).components
    ∧ (Preset.list (Preset.mk "b" "d.json" [] [] [])).2.components
        = (Preset.mk "b" "d.json" [] [] []).components :=
  C10_registry (Preset.mk "b" "d.json" [] [] [])
    (fun _ => ⟨"", none, none, none, none, none⟩)
    [] [("label", Value.str "t")] "n" "n" "n" []
    ⟨"t", none, none, none, none, none⟩
    (Preset.mk "b" "d.json" [] [⟨"t", none, none, none, none, none⟩] [])
    "successfully saved the preset"
    (Preset.mk "b" "d.json" [] [] [("n.json", [])])
    (by decide) (by decide)

/-- C1 as stated is false: the caller explicitly passes `value = 1`, the
default preset stores `value = 2` for the path, and the constructed
arguments carry `2` — the default wins over the caller, not the reverse. -/
theorem C1_counterexample :
    (componentPathArgs [("lbl", [("value", Value.num 2)])] []
        [("label", Value.str "lbl"), ("value", Value.num 1)]).map
      (fun r => Dict.get r.2 "value") = some (some (Value.num 2))
    ∧ Value.num 2 ≠ Value.num 1 := by decide

/-- C1 amended: in the merged construction arguments the default-preset
attributes take precedence — a key present in the default bag gets the
default's value, and caller-supplied values survive only for keys the
default bag does not define. -/
theorem C1_amended (dv : PresetDict) (ctx : List (Option String)) (kwargs : Bag)
    (path : String) (args : Bag)
    (h : componentPathArgs dv ctx kwargs = some (path, args))
    (hnd : Dict.NodupKeys (Dict.getD dv path []))
    (k : String) :
    (Dict.get (Dict.getD dv path []) k = none →
        Dict.get args k = Dict.get kwargs k)
    ∧ ∀ v, Dict.get (Dict.getD dv path []) k = some v →
        Dict.get args k = some v := by
  unfold componentPathArgs at h
  cases hl : Dict.get kwargs "label" with
  | none => rw [hl] at h; exact absurd h (by simp)
  | some lv =>
      cases lv with
      | null => rw [hl] at h; exact absurd h (by simp)
      | bool b => rw [hl] at h; exact absurd h (by simp)
      | num n => rw [hl] at h; exact absurd h (by simp)
      | str label =>
          rw [hl] at h
          simp only [Option.some.injEq, Prod.mk.injEq] at h
          obtain ⟨hp, ha⟩ := h
          subst hp
          subst ha
          constructor
          · intro hdk
            exact Dict.get_merge_none _ _ _ hdk
          · intro v hdk
            exact Dict.get_merge_some _ _ _ _ hnd hdk

/-- Witness for C1 amended: a key the default bag does not define keeps the
caller's value in the constructed arguments. -/
theorem C1_amended_witness :
    Dict.get [("label", Value.str "lbl"), ("value", Value.num 1),
        ("visible", Value.bool true)] "value"
      = Dict.get [("label", Value.str "lbl"), ("value", Value.num 1)] "value" :=
  (C1_amended [("lbl", [("visible", Value.bool true)])] []
    [("label", Value.str "lbl"), ("value", Value.num 1)]
    "lbl" [("label", Value.str "lbl"), ("value", Value.num 1),
           ("visible", Value.bool true)]
    (by decide) (by decide) "value").1 (by decide)

/-- C7 as stated is false: registering with the empty string as own label
does not fail — it succeeds and produces the ambiguous path `"G/"`. -/
theorem C7_counterexample :
    (Preset.component (Preset.mk "b" "d.json" [] [] [])
        (fun _ => ⟨"", none, none, none, none, none⟩)
        [some "G"] [("label", Value.str "")]).isSome = true
    ∧ componentPathArgs [] [some "G"] [("label", Value.str "")]
        = some ("G/", [("label", Value.str "")]) := by decide

/-- C7 amended: a registration whose kwargs carry no usable `label` fails
(the `kwargs['label']` lookup raises, modeled as `none`), while an empty
string label is accepted without any error and yields a widget whose path
ends in an empty segment. -/
theorem C7_amended (p : Preset) (mk : Bag → Component)
    (ctx : List (Option String)) (kwargs kwargs₂ : Bag)
    (habsent : Dict.get kwargs "label" = none)
    (hempty : Dict.get kwargs₂ "label" = some (Value.str "")) :
    Preset.component p mk ctx kwargs = none
    ∧ (Preset.component p mk ctx kwargs₂).isSome = true := by
  constructor
  · simp [Preset.component, componentPathArgs, habsent]
  · simp [Preset.component, componentPathArgs, hempty]

/-- Witness for C7 amended: kwargs without a label versus kwargs with the
empty label. -/
theorem C7_amended_witness :
    Preset.component (Preset.mk "b" "d.json" [] [] [])
        (fun _ => ⟨"", none, none, none, none, none⟩) [some "G"] [] = none
    ∧ (Preset.component (Preset.mk "b" "d.json" [] [] [])
        (fun _ => ⟨"", none, none, none, none, none⟩) [some "G"]
        [("label", Value.str "")]).isSome = true :=
  C7_amended (Preset.mk "b" "d.json" [] [] [])
    (fun _ => ⟨"", none, none, none, none, none⟩) [some "G"]
    [] [("label", Value.str "")] (by decide) (by decide)

/-- C9 as stated is false: the chains `["a/b"]` and `["a", "b"]` are
distinct, yet both join to the path `"a/b"`. -/
theorem C9_counterexample :
    buildPaths [] ["a/b"] ≠ buildPaths [some "a"] ["b"]
    ∧ joinPath (buildPaths [] ["a/b"]) = joinPath (buildPaths [some "a"] ["b"]) := by
  decide

/-- C9 amended: the path is a pure function of the labeled chain (identical
chains always give identical paths, with no dependence on registration
order), and as long as no label contains the separator `'/'`, distinct
chains give distinct slash-joined paths. -/
theorem C9_amended (ctx1 ctx2 : List (Option String)) (l1 l2 : String)
    (h1 : ∀ s ∈ buildPaths ctx1 [l1], '/' ∉ s.data)
    (h2 : ∀ s ∈ buildPaths ctx2 [l2], '/' ∉ s.data) :
    joinPath (buildPaths ctx1 [l1]) = joinPath (buildPaths ctx2 [l2])
      ↔ buildPaths ctx1 [l1] = buildPaths ctx2 [l2] := by
  constructor
  · intro h
    exact joinPath_inj _ _ (buildPaths_ne_nil _ _ _) (buildPaths_ne_nil _ _ _)
      h1 h2 h
  · intro h
    rw [h]

/-- Witness for C9 amended at two concrete slash-free chains. -/
theorem C9_amended_witness :
    joinPath (buildPaths [some "G"] ["a"]) = joinPath (buildPaths [] ["b"])
      ↔ buildPaths [some "G"] ["a"] = buildPaths [] ["b"] :=
  C9_amended [some "G"] [] "a" "b" (by decide) (by decide)

/-- After a successful `save`, loading the same name reads back exactly the
mapping that was written. -/
theorem load_after_save_set (p : Preset) (nm : String) (L : PresetDict) :
    (Preset.load { p with fs := Dict.set p.fs (resolveName nm) L } nm).1.2 = L := by
  show Dict.getD (Dict.set p.fs (resolveName nm) L) (resolveName nm) [] = L
  exact Dict.getD_set_self _ _ _ _

/-- C3 as stated is false when two widgets share a path: with two
choice-free widgets both at path `"p"`, `save("n", 1, 2)` followed by
`apply("n")` yields `value` fields `[2, 2]`, not `[1, 2]`. -/
theorem C3_counterexample :
    ((Preset.save (Preset.mk "b" "d.json" []
        [⟨"p", none, none, none, none, none⟩, ⟨"p", none, none, none, none, none⟩]
        []) "n" [Value.num 1, Value.num 2]).map
      (fun r => (Preset.apply r.2 "n").1.1.map (fun b => Dict.get b "value")))
      = some [some (Value.num 2), some (Value.num 2)]
    ∧ [some (Value.num 2), some (Value.num 2)]
        ≠ [some (Value.num 1), some (Value.num 2)] := by decide

/-- C3 amended: for a registry of pairwise-distinct paths none of which
exposes a restricted choice set, `save(name, v1..vn)` followed by
`apply(name)` produces update directives whose `value` fields are
`v1..vn` in registration order. -/
theorem C3_amended (p : Preset) (nm : String) (vs : List Value)
    (hnodup : (p.components.map (fun c => c.path)).Nodup)
    (hnoch : ∀ c ∈ p.components, c.choices? = none)
    (hlen : vs.length = p.components.length) :
    ∃ p', Preset.save p nm vs = some ("successfully saved the preset", p')
      ∧ ((Preset.apply p' nm).1.1.map (fun b => Dict.get b "value"))
          = vs.map some := by
  have hle : p.components.length ≤ vs.length := le_of_eq hlen.symm
  refine ⟨{ p with
              fs := Dict.set p.fs (resolveName nm)
                      (saveLoop (p.components.zip vs)
                        (Dict.getD p.fs (resolveName nm) [])) }, ?_, ?_⟩
  · simp only [Preset.save, Preset.load, if_pos hle]
  · show (applyLoop (Preset.load _ nm).1.2 p.components).map
        (fun b => Dict.get b "value") = vs.map some
    rw [load_after_save_set, applyLoop_no_choices p.components _ hnoch,
        List.map_map]
    apply List.ext_get (by simpa using hlen.symm)
    intro n h1 h2
    have hn : n < p.components.length := by simpa using h1
    rw [List.get_map, List.get_map]
    show Dict.get (Dict.getD (saveLoop (p.components.zip vs) _)
        (p.components.get ⟨n, hn⟩).path []) "value" = some (vs.get ⟨n, _⟩)
    rw [saveLoop_getD_nodup p.components vs _ n hn hle hnodup]
    exact get_saveConfigStep_value _ _ _

/-- Witness for C3 amended: one choice-free widget, one value. -/
theorem C3_amended_witness :
    ∃ p', Preset.save (Preset.mk "b" "d.json" []
        [⟨"p", none, none, none, none, none⟩] []) "n" [Value.num 3]
        = some ("successfully saved the preset", p')
      ∧ ((Preset.apply p' "n").1.1.map (fun b => Dict.get b "value"))
          = [Value.num 3].map some :=
  C3_amended (Preset.mk "b" "d.json" [] [⟨"p", none, none, none, none, none⟩] [])
    "n" [Value.num 3] (by decide) (by decide) (by decide)

/-- Pointwise path equality of two component lists whose path maps agree. -/
theorem path_get_eq_of_map_eq : ∀ (cs ds : List Component),
    cs.map (fun c => c.path) = ds.map (fun c => c.path) →
    ∀ (i : Nat) (hic : i < cs.length) (hid : i < ds.length),
    (cs.get ⟨i, hic⟩).path = (ds.get ⟨i, hid⟩).path := by
  intro cs
  induction cs with
  | nil => intro ds h i hic; exact absurd hic (by simp)
  | cons c cs' ih =>
      intro ds h i hic hid
      cases ds with
      | nil => simp at h
      | cons d ds' =>
          simp only [List.map_cons, List.cons.injEq] at h
          cases i with
          | zero => exact h.1
          | succ j =>
              exact ih ds' h.2 j (Nat.lt_of_succ_lt_succ hic)
                (Nat.lt_of_succ_lt_succ hid)

/-- C4 as stated is false when two widgets share a path: with registry
`[p, p]`, after `save("n", 1, 2)` twice the stored `value` at the first
widget's path is `2`, not the `1` supplied for it in the most recent save. -/
theorem C4_counterexample :
    ((Preset.save (Preset.mk "b" "d.json" []
        [⟨"p", none, none, none, none, none⟩, ⟨"p", none, none, none, none, none⟩]
        []) "n" [Value.num 1, Value.num 2]).bind
      (fun r => (Preset.save r.2 "n" [Value.num 1, Value.num 2]).map
        (fun r2 => Dict.get (Dict.getD (Dict.getD r2.2.fs (resolveName "n") [])
          "p" []) "value")))
      = some (some (Value.num 2))
    ∧ some (Value.num 2) ≠ some (Value.num 1) := by decide

/-- C4 amended: for a registry of pairwise-distinct paths and two
successive saves to the same name (the widgets' bounds/visibility possibly
mutated in between, paths unchanged), the stored `value` for the i-th
widget's path equals the value supplied to the most recent save, the first
save also stored its own value, and every `visible`/`min`/`max`/`step`
entry present after the first save is unchanged by the second save. -/
theorem C4_amended (p p1 p1m p2 : Preset) (nm : String) (vs1 vs2 : List Value)
    (msg1 msg2 : String) (cs2 : List Component)
    (h1 : Preset.save p nm vs1 = some (msg1, p1))
    (hmut : p1m = { p1 with components := cs2 })
    (hpaths : cs2.map (fun c => c.path) = p.components.map (fun c => c.path))
    (h2 : Preset.save p1m nm vs2 = some (msg2, p2))
    (hnodup : (p.components.map (fun c => c.path)).Nodup)
    (i : Nat) (hi : i < p.components.length)
    (hv1 : i < vs1.length) (hv2 : i < vs2.length) :
    Dict.get (Dict.getD (Dict.getD p1.fs (resolveName nm) [])
        (p.components.get ⟨i, hi⟩).path []) "value" = some (vs1.get ⟨i, hv1⟩)
    ∧ Dict.get (Dict.getD (Dict.getD p2.fs (resolveName nm) [])
        (p.components.get ⟨i, hi⟩).path []) "value" = some (vs2.get ⟨i, hv2⟩)
    ∧ ∀ a : String, (a = "visible" ∨ a = "min" ∨ a = "max" ∨ a = "step") →
        ∀ w : Value,
          Dict.get (Dict.getD (Dict.getD p1.fs (resolveName nm) [])
              (p.components.get ⟨i, hi⟩).path []) a = some w →
          Dict.get (Dict.getD (Dict.getD p2.fs (resolveName nm) [])
              (p.components.get ⟨i, hi⟩).path []) a = some w := by
  subst hmut
  have hlen2 : cs2.length = p.components.length := by
    simpa using congrArg List.length hpaths
  have hic2 : i < cs2.length := hlen2 ▸ hi
  have hnodup2 : (cs2.map (fun c => c.path)).Nodup := by
    rw [hpaths]; exact hnodup
  have hpath_i : (cs2.get ⟨i, hic2⟩).path = (p.components.get ⟨i, hi⟩).path :=
    path_get_eq_of_map_eq cs2 p.components hpaths i hic2 hi
  by_cases hle1 : p.components.length ≤ vs1.length
  · by_cases hle2 : cs2.length ≤ vs2.length
    · simp only [Preset.save, Preset.load, if_pos hle1, Option.some.injEq,
        Prod.mk.injEq] at h1
      obtain ⟨-, hp1⟩ := h1
      simp only [Preset.save, Preset.load] at h2
      rw [if_pos hle2] at h2
      simp only [Option.some.injEq, Prod.mk.injEq] at h2
      obtain ⟨-, hp2⟩ := h2
      have hcfg1 : Dict.getD p1.fs (resolveName nm) []
          = saveLoop (p.components.zip vs1) (Dict.getD p.fs (resolveName nm) []) := by
        rw [← hp1]
        exact Dict.getD_set_self _ _ _ _
      have hcfg2 : Dict.getD p2.fs (resolveName nm) []
          = saveLoop (cs2.zip vs2) (Dict.getD p1.fs (resolveName nm) []) := by
        rw [← hp2]
        exact Dict.getD_set_self _ _ _ _
      refine ⟨?_, ?_, ?_⟩
      · rw [hcfg1, saveLoop_getD_nodup p.components vs1 _ i hi hle1 hnodup]
        exact get_saveConfigStep_value _ _ _
      · rw [hcfg2, ← hpath_i,
            saveLoop_getD_nodup cs2 vs2 _ i hic2 hle2 hnodup2]
        exact get_saveConfigStep_value _ _ _
      · intro a ha w hw
        have hav : a ≠ "value" := by
          rcases ha with h | h | h | h <;> subst h <;> decide
        rw [hcfg2, ← hpath_i,
            saveLoop_getD_nodup cs2 vs2 _ i hic2 hle2 hnodup2]
        apply get_saveConfigStep_of_some _ _ _ _ _ hav
        rw [hpath_i]
        exact hw
    · exfalso
      simp only [Preset.save, Preset.load] at h2
      rw [if_neg hle2] at h2
      exact Option.noConfusion h2
  · exfalso
    simp only [Preset.save, Preset.load, if_neg hle1] at h1
    exact Option.noConfusion h1

/-- Concrete data for the C4 witness scenario: one slider-like widget,
saved with bounds `0..10`, then mutated to bounds `5..10` and saved again. -/
def preset4 : Preset :=
  ⟨"b", "d.json", [],
    [⟨"p", none, some (Value.num 0), some (Value.num 10), none, none⟩], []⟩

/-- State after the first save of the C4 witness scenario. -/
def preset4a : Preset :=
  ⟨"b", "d.json", [],
    [⟨"p", none, some (Value.num 0), some (Value.num 10), none, none⟩],
    [("n.json", [("p", [("value", Value.num 1), ("min", Value.num 0),
      ("max", Value.num 10)])])]⟩

/-- State after mutating the widget's `min` between the two saves. -/
def preset4m : Preset :=
  ⟨"b", "d.json", [],
    [⟨"p", none, some (Value.num 5), some (Value.num 10), none, none⟩],
    [("n.json", [("p", [("value", Value.num 1), ("min", Value.num 0),
      ("max", Value.num 10)])])]⟩

/-- State after the second save of the C4 witness scenario. -/
def preset4b : Preset :=
  ⟨"b", "d.json", [],
    [⟨"p", none, some (Value.num 5), some (Value.num 10), none, none⟩],
    [("n.json", [("p", [("value", Value.num 2), ("min", Value.num 0),
      ("max", Value.num 10)])])]⟩

/-- Witness for C4 amended: the value is refreshed by both saves, and the
first save's `min = 0` survives the second save made with `min = 5`. -/
theorem C4_amended_witness :
    Dict.get (Dict.getD (Dict.getD preset4a.fs (resolveName "n") []) "p" [])
      "value" = some (Value.num 1)
    ∧ Dict.get (Dict.getD (Dict.getD preset4b.fs (resolveName "n") []) "p" [])
      "value" = some (Value.num 2)
    ∧ Dict.get (Dict.getD (Dict.getD preset4b.fs (resolveName "n") []) "p" [])
      "min" = some (Value.num 0) := by
  have h := C4_amended preset4 preset4a preset4m preset4b "n"
    [Value.num 1] [Value.num 2]
    "successfully saved the preset" "successfully saved the preset"
    [⟨"p", none, some (Value.num 5), some (Value.num 10), none, none⟩]
    (by decide) (by decide) (by decide) (by decide) (by decide)
    0 (by decide) (by decide) (by decide)
  exact ⟨h.1, h.2.1,
    h.2.2 "min" (Or.inr (Or.inl rfl)) (Value.num 0) (by decide)⟩

/-- The directive `apply` produces for the first widget of the remaining
registry, when the loaded bag at its path carried a stale choice value:
even if earlier widgets sharing the path already nulled the entry, the
directive's `value` is `None` and every other attribute is the loaded one. -/
theorem applyLoop_head_null (values' values0 : PresetDict) (c : Component)
    (cs : List Component) (hm : mutOnly values0 values')
    (chs : List Value) (hch : c.choices? = some chs)
    (v : Value) (hv : Dict.get (Dict.getD values0 c.path []) "value" = some v)
    (hnv : v ∉ chs) :
    ∃ d rest, applyLoop values' (c :: cs) = d :: rest
      ∧ Dict.get d "value" = some Value.null
      ∧ ∀ k, k ≠ "value" →
          Dict.get d k = Dict.get (Dict.getD values0 c.path []) k := by
  obtain ⟨hval, hkeys⟩ := hm c.path
  rcases hval with heq | hnull
  · rw [hv] at heq
    refine ⟨Dict.set (Dict.getD values' c.path []) "value" Value.null,
      applyLoop (Dict.set values' c.path
        (Dict.set (Dict.getD values' c.path []) "value" Value.null)) cs,
      ?_, Dict.get_set_self _ _ _, ?_⟩
    · simp [applyLoop, heq, hch, hnv]
    · intro k hk
      rw [Dict.get_set_ne _ _ (fun hh => hk hh.symm)]
      exact hkeys k hk
  · by_cases hin : Value.null ∈ chs
    · refine ⟨Dict.getD values' c.path [], applyLoop values' cs,
        ?_, hnull, fun k hk => hkeys k hk⟩
      simp [applyLoop, hnull, hch, hin]
    · refine ⟨Dict.set (Dict.getD values' c.path []) "value" Value.null,
        applyLoop (Dict.set values' c.path
          (Dict.set (Dict.getD values' c.path []) "value" Value.null)) cs,
        ?_, Dict.get_set_self _ _ _, ?_⟩
      · simp [applyLoop, hnull, hch, hin]
      · intro k hk
        rw [Dict.get_set_ne _ _ (fun hh => hk hh.symm)]
        exact hkeys k hk

/-- C2 as stated is false: for a choice widget whose stored `value` `"c"`
is outside `choices = ["a", "b"]`, the update directive still carries a
`value` entry — set to `None` — rather than having no `value` at all. -/
theorem C2_counterexample :
    (Preset.apply (Preset.mk "b" "d.json" []
        [⟨"p", none, none, none, none, some [Value.str "a", Value.str "b"]⟩]
        [("n.json", [("p", [("value", Value.str "c"),
                            ("visible", Value.bool true)])])])
      "n").1.1 = [[("value", Value.null), ("visible", Value.bool true)]]
    ∧ Dict.get [("value", Value.null), ("visible", Value.bool true)] "value"
        ≠ none := by decide

/-- C2 amended: for every registered choice widget whose loaded bag holds a
`value` outside the current choice set, the update directive `apply`
produces for it carries `value = None` (the entry is nulled, not removed),
while every other attribute of the loaded bag is passed through unchanged. -/
theorem C2_amended (p : Preset) (nm : String) (pre post : List Component)
    (c : Component) (hcs : p.components = pre ++ c :: post)
    (chs : List Value) (hch : c.choices? = some chs) (v : Value)
    (hv : Dict.get (Dict.getD (Preset.load p nm).1.2 c.path []) "value" = some v)
    (hnv : v ∉ chs) :
    ∃ d rest, (Preset.apply p nm).1.1
        = applyLoop (Preset.load p nm).1.2 pre ++ d :: rest
      ∧ (applyLoop (Preset.load p nm).1.2 pre).length = pre.length
      ∧ Dict.get d "value" = some Value.null
      ∧ ∀ k, k ≠ "value" →
          Dict.get d k = Dict.get (Dict.getD (Preset.load p nm).1.2 c.path []) k := by
  obtain ⟨d, rest, hl, hval, hk⟩ :=
    applyLoop_head_null (applyState (Preset.load p nm).1.2 pre)
      (Preset.load p nm).1.2 c post (mutOnly_applyState pre _) chs hch v hv hnv
  refine ⟨d, rest, ?_, applyLoop_length pre _, hval, hk⟩
  show applyLoop (Preset.load p nm).1.2 p.components = _
  rw [hcs, applyLoop_append, hl]

/-- Witness for C2 amended at the concrete store of the counterexample. -/
theorem C2_amended_witness :
    ∃ d rest, (Preset.apply (Preset.mk "b" "d.json" []
        [⟨"p", none, none, none, none, some [Value.str "a", Value.str "b"]⟩]
        [("n.json", [("p", [("value", Value.str "c"),
                            ("visible", Value.bool true)])])]) "n").1.1
        = applyLoop (Preset.load (Preset.mk "b" "d.json" []
            [⟨"p", none, none, none, none, some [Value.str "a", Value.str "b"]⟩]
            [("n.json", [("p", [("value", Value.str "c"),
                                ("visible", Value.bool true)])])]) "n").1.2 []
          ++ d :: rest
      ∧ (applyLoop (Preset.load (Preset.mk "b" "d.json" []
            [⟨"p", none, none, none, none, some [Value.str "a", Value.str "b"]⟩]
            [("n.json", [("p", [("value", Value.str "c"),
                                ("visible", Value.bool true)])])]) "n").1.2 []).length
          = ([] : List Component).length
      ∧ Dict.get d "value" = some Value.null
      ∧ ∀ k, k ≠ "value" →
          Dict.get d k = Dict.get (Dict.getD (Preset.load (Preset.mk "b" "d.json" []
            [⟨"p", none, none, none, none, some [Value.str "a", Value.str "b"]⟩]
            [("n.json", [("p", [("value", Value.str "c"),
                                ("visible", Value.bool true)])])]) "n").1.2
            "p" []) k :=
  C2_amended (Preset.mk "b" "d.json" []
      [⟨"p", none, none, none, none, some [Value.str "a", Value.str "b"]⟩]
      [("n.json", [("p", [("value", Value.str "c"),
                          ("visible", Value.bool true)])])])
    "n" [] [] ⟨"p", none, none, none, none, some [Value.str "a", Value.str "b"]⟩
    rfl [Value.str "a", Value.str "b"] rfl (Value.str "c") (by decide) (by decide)
